import Mathlib

/-!
Verification of the reverse-image dataset generator's processing pipeline.

The development shallowly embeds the server's dataset pipeline (the
`/api/process` handler, the packager `processImages`, the dataset store and
the `/api/datasets/:id` handler), the vision analysis client
(`generateDescription`), the client-side per-image retry loop, the
single-image `/api/analyze` handler, and a slot-based cancellation model of
the client batch loop.  File contents are modelled as `List Char`; machine
details (actual ZIP byte layout, HTTP transport) are abstracted to the
structures the properties speak about.
-/

/-! ### JSON serialization (JSON.stringify for the record shapes used) -/

/-- Hexadecimal digit characters, used for control-character escapes. -/
def hexDigit (d : Nat) : Char :=
  "0123456789abcdef".data.getD d '0'

/-- Escaping of one character, as JSON.stringify performs on string values:
quotes and backslashes are escaped, newline / carriage return / tab get
two-character escapes, remaining control characters get a u-escape, and
every other character is emitted unchanged. -/
def escapeChar (c : Char) : List Char :=
  if c = '"' then ['\\', '"']
  else if c = '\\' then ['\\', '\\']
  else if c = '\n' then ['\\', 'n']
  else if c = '\r' then ['\\', 'r']
  else if c = '\t' then ['\\', 't']
  else if c.toNat < 32 then
    ['\\', 'u', '0', '0', hexDigit (c.toNat / 16), hexDigit (c.toNat % 16)]
  else [c]

/-- Escape a whole string (character list). -/
def escString : List Char → List Char
  | [] => []
  | c :: cs => escapeChar c ++ escString cs

/-- JSON serialization of a string value, quotes included. -/
def jsonStr (s : String) : List Char :=
  '"' :: escString s.data ++ ['"']

/-- Join pieces with a single separator character (Array.prototype.join). -/
def joinWith (sep : Char) : List (List Char) → List Char
  | [] => []
  | [p] => p
  | p :: ps => p ++ sep :: joinWith sep ps

/-- Join pieces with newlines: `entries.map(JSON.stringify).join("\n")`. -/
def joinNl (ps : List (List Char)) : List Char :=
  joinWith '\n' ps

/-- JSON serialization of an array of strings. -/
def jsonStrArr (xs : List String) : List Char :=
  '[' :: joinWith ',' (xs.map jsonStr) ++ [']']

/-- Split a character list at newline characters; `splitNl l` always has one
more piece than `l` has newline characters, mirroring how consumers count
the lines of a `.jsonl` file. -/
def splitNl : List Char → List (List Char)
  | [] => [[]]
  | c :: cs =>
    match splitNl cs with
    | [] => [[]]
    | p :: ps => if c = '\n' then [] :: p :: ps else (c :: p) :: ps

/-! ### Data model (src/server/types.ts and client lib/types.ts) -/

/-- Structured result of one vision analysis
(`ReverseImageGenerationResponseSchema` in the analysis service). -/
structure ProcessedImage where
  imageRecognitionDescription : String
  imageGenerationPrompt : String
  imageTags : List String
deriving DecidableEq

/-- One per-image analysis record as submitted to `/api/process`
(field access pattern of the route handler: `a.filename`,
`a.processedImage.imageGenerationPrompt`). -/
structure Analysis where
  filename : String
  processedImage : ProcessedImage
deriving DecidableEq

/-- One line of `dataset.jsonl` (`DatasetEntry` in client lib/types.ts). -/
structure DatasetEntry where
  task_type : String
  instruction : String
  input_images : List String
  output_image : String
deriving DecidableEq

/-- Batch-level metadata record written to `metadata.jsonl`
(`DatasetMetadata` in server types). -/
structure DatasetMetadata where
  model : String
  context : String
  analyses : List Analysis
deriving DecidableEq

/-- An uploaded multer file: original filename plus its bytes
(content modelled as a character list; the byte values are opaque to
every verified property). -/
structure MFile where
  originalname : String
  content : List Char
deriving DecidableEq

/-- JSON.stringify of a `DatasetEntry`: JS object fields serialize in
insertion order, which is the literal order in the route handler. -/
def serializeEntry (e : DatasetEntry) : List Char :=
  ("\x7b\"task_type\":").data ++ jsonStr e.task_type
    ++ (",\"instruction\":").data ++ jsonStr e.instruction
    ++ (",\"input_images\":").data ++ jsonStrArr e.input_images
    ++ (",\"output_image\":").data ++ jsonStr e.output_image
    ++ ("\x7d").data

/-- Serialization of one analysis record inside `metadata.jsonl`. -/
def serializeAnalysis (a : Analysis) : List Char :=
  ("\x7b\"filename\":").data ++ jsonStr a.filename
    ++ (",\"processedImage\":\x7b\"imageRecognitionDescription\":").data
    ++ jsonStr a.processedImage.imageRecognitionDescription
    ++ (",\"imageGenerationPrompt\":").data
    ++ jsonStr a.processedImage.imageGenerationPrompt
    ++ (",\"imageTags\":").data ++ jsonStrArr a.processedImage.imageTags
    ++ ("\x7d\x7d").data

/-- Serialization of the metadata record.  The source pretty-prints it with
`JSON.stringify(metadata, null, 4)`; no verified property depends on the
whitespace of this file, so whitespace is not reproduced here. -/
def serializeMetadata (m : DatasetMetadata) : List Char :=
  ("\x7b\"model\":").data ++ jsonStr m.model
    ++ (",\"context\":").data ++ jsonStr m.context
    ++ (",\"analyses\":[").data
    ++ joinWith ',' (m.analyses.map serializeAnalysis)
    ++ ("]\x7d").data

/-- Construction of one dataset entry in the `/api/process` handler:
the analyses list is searched for the file's original name, and the
instruction falls back to a placeholder when the analysis is missing or its
prompt is the empty string (JS `||` on a falsy value). -/
def buildEntry (analyses : List Analysis) (f : MFile) : DatasetEntry :=
  match analyses.find? (fun a => a.filename = f.originalname) with
  | some a =>
    { task_type := "text_to_image"
      instruction :=
        if a.processedImage.imageGenerationPrompt = "" then
          "An image from the dataset"
        else a.processedImage.imageGenerationPrompt
      input_images := []
      output_image := f.originalname }
  | none =>
    { task_type := "text_to_image"
      instruction := "An image from the dataset"
      input_images := []
      output_image := f.originalname }

/-! ### Working directory and the packager (services/fileProcessing.ts) -/

/-- Contents of the per-batch working directory: a name-unique map from
filename to file content. -/
abbrev Dir := List (String × List Char)

/-- `fs.writeFile` / `fs.copyFile` into the directory: overwrites an
existing entry of the same name, otherwise appends. -/
def dirWrite (d : Dir) (name : String) (content : List Char) : Dir :=
  if d.any (fun p => p.1 = name) then
    d.map (fun p => if p.1 = name then (name, content) else p)
  else d ++ [(name, content)]

/-- A name is present in the directory. -/
def dirHas (d : Dir) (name : String) : Prop :=
  d.any (fun p => p.1 = name) = true

/-- The produced archive: the two top-level `.jsonl` entries plus the
`images/` directory listing. -/
structure Archive where
  datasetJsonl : List Char
  metadataJsonl : List Char
  images : List (String × List Char)
deriving DecidableEq

/-- A filename is present under `images/` in the archive. -/
def imagesHas (a : Archive) (name : String) : Prop :=
  a.images.any (fun p => p.1 = name) = true

/-- The packager `processImages` (services/fileProcessing.ts): writes
`dataset.jsonl` (one JSON.stringify line per entry, joined with newlines)
and `metadata.jsonl` into the working directory, then archives both files
plus the directory contents under `images/`, excluding exactly the names
`dataset.jsonl` and `metadata.jsonl` from `images/`. -/
def processImages (datasetEntries : List DatasetEntry)
    (metadata : DatasetMetadata) (tempDir : Dir) : Archive :=
  let jsonlContent := joinNl (datasetEntries.map serializeEntry)
  let metaContent := serializeMetadata metadata
  let dir1 := dirWrite tempDir "dataset.jsonl" jsonlContent
  let dir2 := dirWrite dir1 "metadata.jsonl" metaContent
  { datasetJsonl := jsonlContent
    metadataJsonl := metaContent
    images := dir2.filter
      (fun p => ¬ (p.1 = "dataset.jsonl" ∨ p.1 = "metadata.jsonl")) }

/-! ### Dataset identifiers and the store (routes `/api/process`, `/api/datasets/:id`) -/

/-- Decimal digit characters. -/
def decDigit (d : Nat) : Char :=
  "0123456789".data.getD d '0'

/-- Fuel-driven decimal rendering, least significant digit first into the
accumulator; `fuel = n + 1` always suffices. -/
def natToDecimalAux : Nat → Nat → List Char → List Char
  | 0, _, acc => acc
  | fuel + 1, n, acc =>
    if n < 10 then decDigit n :: acc
    else natToDecimalAux fuel (n / 10) (decDigit (n % 10) :: acc)

/-- `Number.prototype.toString` for the nonnegative integers produced by
`Date.now()`. -/
def natToDecimal (n : Nat) : List Char :=
  natToDecimalAux (n + 1) n []

/-- The dataset identifier generated for a batch completing at clock value
`now`: `Date.now().toString()`. -/
def datasetIdOf (now : Nat) : String :=
  String.mk (natToDecimal now)

/-- The flat-file name a dataset is stored under:
`uploads/datasets/dataset_<id>.zip` (the constant directory part is
omitted). -/
def datasetKey (id : String) : String :=
  "dataset_" ++ id ++ ".zip"

/-- The dataset store: the files in `uploads/datasets`, newest first.
`fs.writeFile` overwrite semantics are given by prepending, with lookups
returning the most recent binding. -/
abbrev Store := List (String × Archive)

/-- `put`: write the archive blob under the identifier's file name. -/
def storePut (s : Store) (id : String) (a : Archive) : Store :=
  (datasetKey id, a) :: s

/-- `get`: read the file for the identifier, if present. -/
def storeGet (s : Store) (id : String) : Option Archive :=
  (s.find? (fun p => p.1 = datasetKey id)).map (fun p => p.2)

/-- Response of `GET /api/datasets/:id`. -/
inductive FetchResponse where
  | download (a : Archive)
  | notFound
deriving DecidableEq

/-- The `/api/datasets/:id` handler: checks existence with `fs.access`,
answers 404 `Dataset not found` when the file is absent, otherwise streams
the file; it never mutates the store. -/
def fetchDataset (store : Store) (id : String) : FetchResponse × Store :=
  match storeGet store id with
  | some a => (FetchResponse.download a, store)
  | none => (FetchResponse.notFound, store)

/-- Response of `POST /api/process`. -/
inductive ProcessResponse where
  | ok (datasetId : String)
  | err (status : Nat) (details : String)
deriving DecidableEq

/-- The `/api/process` route handler: validates that files, analyses and a
model are present (a thrown validation error is answered with HTTP 500 by
the catch-all), builds one dataset entry per uploaded file in upload order,
copies the uploads into a fresh working directory under their original
names, runs the packager, generates the timestamp identifier and stores the
archive. -/
def processHandler (files : List MFile) (analyses : List Analysis)
    (model context : String) (now : Nat) (store : Store) :
    ProcessResponse × Store :=
  if files.length = 0 then
    (ProcessResponse.err 500 "No files uploaded", store)
  else if analyses.length = 0 then
    (ProcessResponse.err 500 "No analyses provided", store)
  else if model = "" then
    (ProcessResponse.err 500 "No model selected", store)
  else
    let entries := files.map (buildEntry analyses)
    let tempDir : Dir :=
      files.foldl (fun d f => dirWrite d f.originalname f.content) ([] : Dir)
    let archive := processImages entries
      { model := model, context := context, analyses := analyses } tempDir
    let datasetId := datasetIdOf now
    (ProcessResponse.ok datasetId, storePut store datasetId archive)

/-! ### Facts about decimal identifiers -/

/-- Numeric value of a decimal digit character. -/
def digitVal (c : Char) : Nat :=
  c.toNat - 48

/-- Numeric value of a decimal string. -/
def strVal (l : List Char) : Nat :=
  l.foldl (fun a c => 10 * a + digitVal c) 0

/-! ### Facts about the store -/

/-! ### Facts about the working directory -/

/-! ### The vision analysis client (services/imageAnalysis, tagged-result revision) -/

/-- Provenance metadata attached to a successful analysis
(`ReverseImageGenerationMetadata`).  The fixed sampling temperature `0.7`
is recorded in tenths to stay within exact arithmetic; the usage counters
are opaque to every verified property and are omitted. -/
structure ReverseImageGenerationMetadata where
  model : String
  prompt : String
  temperatureTenths : Nat
  seed : Nat
  systemFingerprint : Option String
deriving DecidableEq

/-- The prompt template built by `generateDescription`, with the two
context-conditional extensions and the fenced context block. -/
def promptOf (context : String) : String :=
  let hasContext := decide (context.trim ≠ "")
  "You are a image generation prompt engineer. Your task is to generate datasets to train a diffusion model to generate certain images when referring to the user-provided context in the input prompt.\n\nPlease describe the provided image in detail, focusing on visual elements that would be important for regenerating a similar image. If people are involved, also describe their visible emotions and feelings. Also generate tags matching the description. "
  ++ (if hasContext then "Integrate the user-provided context in the description and the tags while describing the image, as this is important for the image generation. If characters, places or things are mentioned in the user-provided context, ensure to include them in the tags list as well. " else "")
  ++ "Then generate an optimized short prompt which would be used to generate the image"
  ++ (if hasContext then ", but also integrate the user-provided context in the generated prompt as well" else "")
  ++ ". Be specific but concise!"
  ++ (if hasContext then "\n\nThe user-provided context is:\n\n```context\n" ++ context ++ "\n```\n\nIMPORTANT: Ensure to integrate the user-provided context in the image description, the tags and the image generation prompt. The generated image generation prompt is later used to train the image generation model to produce similar images using the user-provided context. Therefore, while generating the image description, the tags and the image generation prompt, refer to all entities mentioned in the user-provided context EXPLICITLY BY THEIR GIVEN NAMES, AVOIDING GENERIC PHRASES like \"a person named [name].\"!!" else "")

/-- Outcome of the one outbound structured-completion call: the message
carries a parsed payload, or a refusal, or neither (malformed / empty
output), or the call throws (timeout, 4xx/5xx, network failure). -/
inductive ApiOutcome where
  | parsed (data : ProcessedImage) (fingerprint : Option String)
  | refusal (text : String) (fingerprint : Option String)
  | empty (fingerprint : Option String)
  | threw (message : String)
deriving DecidableEq

/-- The tagged result type `GenerateDescriptionResponse`: `ok` with data and
provenance metadata, or a failure with a user-facing message and the
underlying error rendered as a string. -/
inductive GenerateDescriptionResponse where
  | ok (data : ProcessedImage) (metadata : ReverseImageGenerationMetadata)
  | failure (message : String) (error : String)
deriving DecidableEq

/-- `generateDescription` of the tagged-result revision: a parsed message
yields `ok` with the metadata record; a refusal yields a failure whose
error wraps the refusal text; a message with neither parsed payload nor
refusal yields the `Unknown` failure; a thrown transport error is caught
and yields a failure whose message carries the extracted error message. -/
def generateDescription (model context : String) (outcome : ApiOutcome) :
    GenerateDescriptionResponse :=
  match outcome with
  | ApiOutcome.parsed d fp =>
    GenerateDescriptionResponse.ok d
      { model := model, prompt := promptOf context, temperatureTenths := 7,
        seed := 42, systemFingerprint := fp }
  | ApiOutcome.refusal r _ =>
    GenerateDescriptionResponse.failure "Failed to analyze image."
      ("Error generating description: " ++ r)
  | ApiOutcome.empty _ =>
    GenerateDescriptionResponse.failure "Failed to analyze image." "Unknown"
  | ApiOutcome.threw m =>
    GenerateDescriptionResponse.failure ("Failed to analyze image: " ++ m) m

/-! ### The client per-image retry loop (ProcessingQueue.analyzeImage) -/

/-- Outcome of one `fetch('/api/analyze')` attempt as the loop sees it:
an ok response (HTTP 2xx — note the analyze endpoint answers refusal and
unparseable analysis results with HTTP 200 and the failure payload, so they
arrive here), a non-ok response whose details are thrown, a rejected fetch
(network failure), or an abort. -/
inductive AttemptOutcome where
  | httpOk (description : String)
  | httpErr (details : String)
  | netErr (message : String)
  | aborted
deriving DecidableEq

/-- The retry bound of the client loop. -/
def MAX_RETRIES : Nat := 3

/-- Result of the whole retry loop: a returned description, a re-thrown
AbortError, or the final thrown error after exhausting the bound. -/
inductive AnalyzeResult where
  | success (description : String)
  | thrownAbort
  | failure (message : String)
deriving DecidableEq

/-- One run of the retry loop: its result, the number of attempts issued,
and the backoff delays (in milliseconds) slept between attempts. -/
structure AnalyzeTrace where
  result : AnalyzeResult
  attemptsMade : Nat
  delays : List Nat
deriving DecidableEq

/-- The loop body of `analyzeImage`: `remaining` counts the iterations left
(`remaining = MAX_RETRIES - attempt` at every call), so the source guard
`attempt < MAX_RETRIES - 1` for scheduling another attempt is `remaining`
not having reached its last iteration.  An ok response returns, an abort is
re-thrown immediately, and any other error is recorded as `lastError` and
retried after a `1000 * 2 ^ attempt` ms backoff until the bound. -/
def analyzeLoop (outcomes : Nat → AttemptOutcome) (attempt remaining : Nat)
    (lastErr : Option String) (delays : List Nat) : AnalyzeTrace :=
  match remaining with
  | 0 =>
    { result := AnalyzeResult.failure
        (lastErr.getD "Failed to analyze image after multiple attempts")
      attemptsMade := attempt, delays := delays }
  | r + 1 =>
    match outcomes attempt with
    | AttemptOutcome.httpOk d =>
      { result := AnalyzeResult.success d, attemptsMade := attempt + 1,
        delays := delays }
    | AttemptOutcome.aborted =>
      { result := AnalyzeResult.thrownAbort, attemptsMade := attempt + 1,
        delays := delays }
    | AttemptOutcome.httpErr m =>
      if r = 0 then
        { result := AnalyzeResult.failure m, attemptsMade := attempt + 1,
          delays := delays }
      else analyzeLoop outcomes (attempt + 1) r (some m)
        (delays ++ [1000 * 2 ^ attempt])
    | AttemptOutcome.netErr m =>
      if r = 0 then
        { result := AnalyzeResult.failure m, attemptsMade := attempt + 1,
          delays := delays }
      else analyzeLoop outcomes (attempt + 1) r (some m)
        (delays ++ [1000 * 2 ^ attempt])

/-- The client's `analyzeImage` retry loop over a stream of attempt
outcomes. -/
def analyzeImage (outcomes : Nat → AttemptOutcome) : AnalyzeTrace :=
  analyzeLoop outcomes 0 MAX_RETRIES none []

/-! ### The single-image analyze endpoint (`/api/analyze` with inner try/catch) -/

/-- The files present in the `uploads/` directory. -/
abbrev FsState := List String

/-- `fs.writeFile`: the path becomes present. -/
def fsWrite (fs : FsState) (p : String) : FsState :=
  if fs.contains p then fs else p :: fs

/-- `fs.unlink`: the path becomes absent. -/
def fsUnlink (fs : FsState) (p : String) : FsState :=
  fs.filter (fun q => q ≠ p)

/-- Response of `POST /api/analyze`. -/
inductive AnalyzeOneResponse where
  | ok (description : String)
  | err (status : Nat) (message : String)
deriving DecidableEq

/-- The `/api/analyze` handler revision with the inner try/catch: request
validation answers 400 without touching the filesystem; otherwise the
decoded image is written to `uploads/<filename>`, `generateDescription`
runs (`genOutcome = none` models it throwing), and the temporary file is
unlinked on the success path and in the catch handler alike before the
response is sent. -/
def analyzeHandler (fs : FsState) (filename : String) (valid : Bool)
    (genOutcome : Option String) : AnalyzeOneResponse × FsState :=
  if valid = false then
    (AnalyzeOneResponse.err 400 "Invalid image format", fs)
  else
    let tempPath := "uploads/" ++ filename
    let fs1 := fsWrite fs tempPath
    match genOutcome with
    | some d => (AnalyzeOneResponse.ok d, fsUnlink fs1 tempPath)
    | none =>
      (AnalyzeOneResponse.err 500 "Failed to analyze image", fsUnlink fs1 tempPath)

/-! ### The batch loop with cooperative cancellation (ProcessingQueue.processImages) -/

/-- The client-visible processing stages. -/
inductive Stage where
  | idle
  | analyzing
  | generating
  | archiving
  | complete
  | error
deriving DecidableEq

/-- Observable outcome of one batch run: the final stage, the dataset
identifier the client learned (if any), and how many `/api/analyze` and
`/api/process` requests were issued. -/
structure BatchOutcome where
  stage : Stage
  datasetId : Option String
  analyzeCalls : Nat
  processCalls : Nat
deriving DecidableEq

/-- Network calls are numbered by slots: slot `i < files.length` is the
analyze call for image `i`, slot `files.length` is the `/api/process` call.
`cancel = some k` means the abort fires while call `k` is in flight;
`cancel = none` means it never fires.  A slot's call is issued when the
cancellation has not fired before it, and completes when the cancellation
does not fire during it. -/
def slotIssued (cancel : Option Nat) (s : Nat) : Bool :=
  match cancel with
  | none => true
  | some k => decide (s ≤ k)

/-- The call in slot `s` runs to completion on the client side. -/
def slotCompletes (cancel : Option Nat) (s : Nat) : Bool :=
  match cancel with
  | none => true
  | some k => decide (s < k)

/-- Exit of the client's per-image loop. -/
inductive LoopExit where
  | finished (processed : List (String × String)) (calls : Nat)
  | aborted (stage : Stage) (calls : Nat)
  | checkFailed (stage : Stage) (calls : Nat)
deriving DecidableEq

/-- The per-image loop: before each image the active flag is checked (a
failure there throws a plain error, which the outer handler turns into the
`error` stage); an issued analyze call that is aborted in flight re-throws
the AbortError, which the outer handler ignores, leaving the stage as it
was (`analyzing` before the first success, `generating` after).  A
completed call appends its result and continues.  Every analysis that
completes is modelled as succeeding; failure handling inside one analyze
call is the retry loop's concern. -/
def clientLoop (cancel : Option Nat) : List MFile → Nat →
    List (String × String) → LoopExit
  | [], _, processed => LoopExit.finished processed processed.length
  | f :: rest, i, processed =>
    if slotIssued cancel i then
      if slotCompletes cancel i then
        clientLoop cancel rest (i + 1) (processed ++ [(f.originalname, "")])
      else
        LoopExit.aborted
          (if processed.isEmpty then Stage.analyzing else Stage.generating)
          (i + 1)
    else
      LoopExit.checkFailed Stage.error i

/-- One batch run of the client `processImages` flow against the server:
after the loop, `createDataset` runs only while still active and with at
least one processed result; it sets the `archiving` stage and issues the
`/api/process` request.  Once that request is on the wire the server runs
the process handler to completion regardless of a client-side abort; the
client transitions to `complete` with the identifier only if the response
arrives uncancelled. -/
def runBatch (files : List MFile) (analyses : List Analysis)
    (model context : String) (cancel : Option Nat) (now : Nat)
    (store : Store) : BatchOutcome × Store :=
  match clientLoop cancel files 0 [] with
  | LoopExit.checkFailed st calls =>
    ({ stage := st, datasetId := none, analyzeCalls := calls,
       processCalls := 0 }, store)
  | LoopExit.aborted st calls =>
    ({ stage := st, datasetId := none, analyzeCalls := calls,
       processCalls := 0 }, store)
  | LoopExit.finished processed calls =>
    if slotIssued cancel files.length ∧ 0 < processed.length then
      let pr := processHandler files analyses model context now store
      if slotCompletes cancel files.length then
        match pr.1 with
        | ProcessResponse.ok id =>
          ({ stage := Stage.complete, datasetId := some id,
             analyzeCalls := calls, processCalls := 1 }, pr.2)
        | ProcessResponse.err _ _ =>
          ({ stage := Stage.error, datasetId := none,
             analyzeCalls := calls, processCalls := 1 }, pr.2)
      else
        ({ stage := Stage.archiving, datasetId := none,
           analyzeCalls := calls, processCalls := 1 }, pr.2)
    else
      ({ stage := if processed.isEmpty then Stage.analyzing
            else Stage.generating,
         datasetId := none, analyzeCalls := calls, processCalls := 0 },
       store)

/-- A response is a client error (HTTP 4xx). -/
def isClientError (r : ProcessResponse) : Prop :=
  match r with
  | ProcessResponse.ok _ => False
  | ProcessResponse.err status _ => 400 ≤ status ∧ status < 500

instance (r : ProcessResponse) : Decidable (isClientError r) := by
  unfold isClientError
  cases r <;> infer_instance

/-- The fresh per-batch working directory after the uploads are copied in
under their original names. -/
def batchTempDir (files : List MFile) : Dir :=
  files.foldl (fun d f => dirWrite d f.originalname f.content) []

/-- The archive the `/api/process` handler produces for a validated batch. -/
def batchArchive (files : List MFile) (analyses : List Analysis)
    (model context : String) : Archive :=
  processImages (files.map (buildEntry analyses))
    { model := model, context := context, analyses := analyses }
    (batchTempDir files)

instance (d : Dir) (name : String) : Decidable (dirHas d name) := by
  unfold dirHas
  infer_instance

instance (a : Archive) (name : String) : Decidable (imagesHas a name) := by
  unfold imagesHas
  infer_instance

/-! ### Library lemmas for the embedded definitions -/

theorem splitNl_ne_nil (l : List Char) : splitNl l ≠ [] := by
  cases l with
  | nil => simp [splitNl]
  | cons c cs =>
    simp only [splitNl]
    cases h : splitNl cs with
    | nil => simp
    | cons p ps =>
      by_cases hc : c = '\n' <;> simp [hc]

theorem splitNl_no_nl (p : List Char) (h : '\n' ∉ p) : splitNl p = [p] := by
  induction p with
  | nil => rfl
  | cons c cs ih =>
    have hc : c ≠ '\n' := fun hcn => h (hcn ▸ List.mem_cons_self c cs)
    have hcs : '\n' ∉ cs := fun hm => h (List.mem_cons_of_mem c hm)
    simp only [splitNl]
    rw [ih hcs]
    simp [hc]

theorem splitNl_append_nl (p rest : List Char) (h : '\n' ∉ p) :
    splitNl (p ++ '\n' :: rest) = p :: splitNl rest := by
  induction p with
  | nil =>
    simp only [List.nil_append, splitNl]
    cases hr : splitNl rest with
    | nil => exact absurd hr (splitNl_ne_nil rest)
    | cons q qs => simp
  | cons c cs ih =>
    have hc : c ≠ '\n' := fun hcn => h (hcn ▸ List.mem_cons_self c cs)
    have hcs : '\n' ∉ cs := fun hm => h (List.mem_cons_of_mem c hm)
    simp only [List.cons_append, splitNl, List.append_eq]
    rw [ih hcs]
    simp [hc]

theorem splitNl_joinNl (ps : List (List Char)) (hne : ps ≠ [])
    (hnl : ∀ p ∈ ps, '\n' ∉ p) : splitNl (joinNl ps) = ps := by
  induction ps with
  | nil => exact absurd rfl hne
  | cons p ps ih =>
    cases ps with
    | nil =>
      exact splitNl_no_nl p (hnl p (List.mem_cons_self p []))
    | cons q qs =>
      have hp : '\n' ∉ p := hnl p (List.mem_cons_self p (q :: qs))
      have hrest : ∀ r ∈ q :: qs, '\n' ∉ r := fun r hr =>
        hnl r (List.mem_cons_of_mem p hr)
      have : joinNl (p :: q :: qs) = p ++ '\n' :: joinNl (q :: qs) := rfl
      rw [this, splitNl_append_nl p _ hp, ih (by simp) hrest]

theorem hexDigit_ne_nl (d : Nat) : hexDigit d ≠ '\n' := by
  unfold hexDigit
  unfold List.getD
  cases h : "0123456789abcdef".data.get? d with
  | none => simp [h]
  | some c =>
    have hmem : c ∈ "0123456789abcdef".data := List.get?_mem h
    simp only [h, Option.getD_some]
    intro hc
    rw [hc] at hmem
    revert hmem
    decide

theorem escapeChar_no_nl (c : Char) : '\n' ∉ escapeChar c := by
  unfold escapeChar
  split_ifs with h1 h2 h3 h4 h5 h6
  · decide
  · decide
  · decide
  · decide
  · decide
  · intro hm
    simp only [List.mem_cons, List.not_mem_nil, or_false] at hm
    rcases hm with h | h | h | h | h | h
    · exact absurd h.symm (by decide)
    · exact absurd h.symm (by decide)
    · exact absurd h.symm (by decide)
    · exact absurd h.symm (by decide)
    · exact hexDigit_ne_nl _ h.symm
    · exact hexDigit_ne_nl _ h.symm
  · intro hm
    simp only [List.mem_cons, List.not_mem_nil, or_false] at hm
    exact h3 (hm ▸ rfl)

theorem escString_no_nl (s : List Char) : '\n' ∉ escString s := by
  induction s with
  | nil => simp [escString]
  | cons c cs ih =>
    simp only [escString]
    intro hm
    rcases List.mem_append.mp hm with h | h
    · exact escapeChar_no_nl c h
    · exact ih h

theorem jsonStr_no_nl (s : String) : '\n' ∉ jsonStr s := by
  simp only [jsonStr]
  intro hm
  rcases List.mem_cons.mp hm with h | h
  · exact absurd h (by decide)
  · rcases List.mem_append.mp h with h2 | h2
    · exact escString_no_nl s.data h2
    · revert h2; decide

theorem joinWith_no_nl (sep : Char) (hsep : sep ≠ '\n')
    (ps : List (List Char)) (h : ∀ p ∈ ps, '\n' ∉ p) :
    '\n' ∉ joinWith sep ps := by
  induction ps with
  | nil => simp [joinWith]
  | cons p ps ih =>
    cases ps with
    | nil => exact h p (List.mem_cons_self p [])
    | cons q qs =>
      have : joinWith sep (p :: q :: qs) = p ++ sep :: joinWith sep (q :: qs) := rfl
      rw [this]
      intro hm
      rcases List.mem_append.mp hm with h1 | h1
      · exact h p (List.mem_cons_self p (q :: qs)) h1
      · rcases List.mem_cons.mp h1 with h2 | h2
        · exact hsep h2.symm
        · exact ih (fun r hr => h r (List.mem_cons_of_mem p hr)) h2

theorem jsonStrArr_no_nl (xs : List String) : '\n' ∉ jsonStrArr xs := by
  simp only [jsonStrArr]
  intro hm
  rcases List.mem_cons.mp hm with h | h
  · exact absurd h (by decide)
  · rcases List.mem_append.mp h with h2 | h2
    · refine joinWith_no_nl ',' (by decide) _ ?_ h2
      intro p hp
      rcases List.mem_map.mp hp with ⟨s, _, rfl⟩
      exact jsonStr_no_nl s
    · revert h2; decide

theorem digitVal_decDigit (d : Nat) (h : d < 10) :
    digitVal (decDigit d) = d := by
  interval_cases d <;> decide

theorem natToDecimalAux_append (fuel : Nat) :
    ∀ (n : Nat) (acc : List Char),
      natToDecimalAux fuel n acc = natToDecimalAux fuel n [] ++ acc := by
  induction fuel with
  | zero => intro n acc; simp [natToDecimalAux]
  | succ fuel ih =>
    intro n acc
    by_cases h : n < 10
    · simp [natToDecimalAux, h]
    · simp only [natToDecimalAux, h, if_false]
      rw [ih (n / 10) (decDigit (n % 10) :: acc),
        ih (n / 10) [decDigit (n % 10)]]
      simp

theorem strVal_natToDecimalAux (fuel : Nat) :
    ∀ n : Nat, n < 10 ^ fuel → strVal (natToDecimalAux fuel n []) = n := by
  induction fuel with
  | zero =>
    intro n hn
    interval_cases n
    rfl
  | succ fuel ih =>
    intro n hn
    by_cases h : n < 10
    · simp only [natToDecimalAux, h, if_true, strVal, List.foldl]
      rw [digitVal_decDigit n h]
      omega
    · simp only [natToDecimalAux, h, if_false]
      rw [natToDecimalAux_append]
      have hdiv : n / 10 < 10 ^ fuel := by
        rw [Nat.div_lt_iff_lt_mul (by norm_num : 0 < 10)]
        calc n < 10 ^ (fuel + 1) := hn
        _ = 10 ^ fuel * 10 := by ring
      have hrec := ih (n / 10) hdiv
      simp only [strVal] at hrec ⊢
      rw [List.foldl_append, hrec]
      simp only [List.foldl]
      rw [digitVal_decDigit (n % 10) (Nat.mod_lt n (by norm_num))]
      omega

theorem strVal_natToDecimal (n : Nat) : strVal (natToDecimal n) = n := by
  have hlt : n < 10 ^ (n + 1) := by
    calc n < 10 ^ n := Nat.lt_pow_self (by norm_num) n
    _ ≤ 10 ^ (n + 1) := Nat.pow_le_pow_right (by norm_num) (Nat.le_succ n)
  exact strVal_natToDecimalAux (n + 1) n hlt

theorem natToDecimal_injective : Function.Injective natToDecimal := by
  intro a b h
  have := strVal_natToDecimal a
  rw [h, strVal_natToDecimal b] at this
  exact this.symm

theorem datasetIdOf_injective : Function.Injective datasetIdOf := by
  intro a b h
  apply natToDecimal_injective
  exact congrArg String.data h

theorem datasetKey_injective : Function.Injective datasetKey := by
  intro a b h
  have hdata := congrArg String.data h
  have hd : ∀ s t : String, (s ++ t).data = s.data ++ t.data := fun s t => rfl
  unfold datasetKey at hdata
  simp only [hd] at hdata
  have h1 := List.append_cancel_right hdata
  have h2 := List.append_cancel_left h1
  exact congrArg String.mk h2

theorem storeGet_storePut_same (s : Store) (id : String) (a : Archive) :
    storeGet (storePut s id a) id = some a := by
  simp [storeGet, storePut, List.find?]

theorem storeGet_storePut_other (s : Store) (id id' : String) (a : Archive)
    (h : id ≠ id') : storeGet (storePut s id' a) id = storeGet s id := by
  have hk : datasetKey id' ≠ datasetKey id := fun he =>
    h (datasetKey_injective he).symm
  simp only [storeGet, storePut, List.find?]
  simp [hk]

theorem dirHas_dirWrite (d : Dir) (name : String) (content : List Char)
    (m : String) :
    dirHas (dirWrite d name content) m ↔ (m = name ∨ dirHas d m) := by
  unfold dirWrite dirHas
  cases hany : d.any (fun p => p.1 = name) with
  | true =>
    simp only [hany, if_true]
    have hfst : ∀ p : String × List Char,
        (if p.1 = name then (name, content) else p).1 = p.1 := by
      intro p
      by_cases hp : p.1 = name
      · simp [hp]
      · simp [hp]
    have hmap : (d.map (fun p => if p.1 = name then (name, content) else p)).any
        (fun p => p.1 = m) = d.any (fun p => p.1 = m) := by
      rw [List.any_map]
      congr 1
      funext p
      simp only [Function.comp]
      rw [hfst p]
    rw [hmap]
    constructor
    · exact fun h => Or.inr h
    · rintro (rfl | h)
      · exact hany
      · exact h
  | false =>
    simp only [hany, Bool.false_eq_true, if_false, List.any_append,
      List.any_cons, List.any_nil, Bool.or_false, Bool.or_eq_true,
      decide_eq_true_eq]
    constructor
    · rintro (h | h)
      · exact Or.inr h
      · exact Or.inl h.symm
    · rintro (rfl | h)
      · exact Or.inr rfl
      · exact Or.inl h

theorem dirHas_copyFold (files : List MFile) :
    ∀ (d0 : Dir) (m : String),
      dirHas (files.foldl (fun d f => dirWrite d f.originalname f.content) d0) m
        ↔ ((∃ f ∈ files, f.originalname = m) ∨ dirHas d0 m) := by
  induction files with
  | nil => intro d0 m; simp
  | cons f fs ih =>
    intro d0 m
    simp only [List.foldl_cons]
    rw [ih (dirWrite d0 f.originalname f.content) m,
      dirHas_dirWrite d0 f.originalname f.content m]
    constructor
    · rintro (⟨g, hg, rfl⟩ | rfl | h)
      · exact Or.inl ⟨g, List.mem_cons_of_mem f hg, rfl⟩
      · exact Or.inl ⟨f, List.mem_cons_self f fs, rfl⟩
      · exact Or.inr h
    · rintro (⟨g, hg, rfl⟩ | h)
      · rcases List.mem_cons.mp hg with rfl | hg2
        · exact Or.inr (Or.inl rfl)
        · exact Or.inl ⟨g, hg2, rfl⟩
      · exact Or.inr (Or.inr h)

theorem dirHas_nil (m : String) : ¬ dirHas ([] : Dir) m := by
  simp [dirHas]

theorem imagesHas_processImages (entries : List DatasetEntry)
    (metadata : DatasetMetadata) (tempDir : Dir) (m : String) :
    imagesHas (processImages entries metadata tempDir) m
      ↔ (dirHas tempDir m ∧ m ≠ "dataset.jsonl" ∧ m ≠ "metadata.jsonl") := by
  unfold processImages imagesHas
  simp only []
  rw [List.any_eq_true]
  constructor
  · rintro ⟨p, hp, hpm⟩
    rcases List.mem_filter.mp hp with ⟨hp2, hcond⟩
    simp only [decide_eq_true_eq] at hpm hcond
    push_neg at hcond
    subst hpm
    have hd2 : dirHas (dirWrite (dirWrite tempDir "dataset.jsonl"
        (joinNl (entries.map serializeEntry))) "metadata.jsonl"
        (serializeMetadata metadata)) p.1 := by
      unfold dirHas
      rw [List.any_eq_true]
      exact ⟨p, hp2, by simp⟩
    rw [dirHas_dirWrite, dirHas_dirWrite] at hd2
    rcases hd2 with h | h | h
    · exact absurd h hcond.2
    · exact absurd h hcond.1
    · exact ⟨h, hcond.1, hcond.2⟩
  · rintro ⟨hhas, h1, h2⟩
    have hd2 : dirHas (dirWrite (dirWrite tempDir "dataset.jsonl"
        (joinNl (entries.map serializeEntry))) "metadata.jsonl"
        (serializeMetadata metadata)) m := by
      rw [dirHas_dirWrite, dirHas_dirWrite]
      exact Or.inr (Or.inr hhas)
    unfold dirHas at hd2
    rw [List.any_eq_true] at hd2
    rcases hd2 with ⟨p, hp, hpm⟩
    simp only [decide_eq_true_eq] at hpm
    refine ⟨p, List.mem_filter.mpr ⟨hp, ?_⟩, by simp [hpm]⟩
    subst hpm
    simp [h1, h2]

theorem serializeEntry_no_nl (e : DatasetEntry) : '\n' ∉ serializeEntry e := by
  unfold serializeEntry
  intro hm
  simp only [List.append_assoc, List.mem_append] at hm
  rcases hm with h | h | h | h | h | h | h | h | h
  · revert h; decide
  · exact jsonStr_no_nl e.task_type h
  · revert h; decide
  · exact jsonStr_no_nl e.instruction h
  · revert h; decide
  · exact jsonStrArr_no_nl e.input_images h
  · revert h; decide
  · exact jsonStr_no_nl e.output_image h
  · revert h; decide

theorem splitNl_datasetJsonl (entries : List DatasetEntry)
    (metadata : DatasetMetadata) (tempDir : Dir) (hne : entries ≠ []) :
    splitNl (processImages entries metadata tempDir).datasetJsonl
      = entries.map serializeEntry := by
  unfold processImages
  simp only []
  apply splitNl_joinNl
  · simp [hne]
  · intro p hp
    rcases List.mem_map.mp hp with ⟨e, _, rfl⟩
    exact serializeEntry_no_nl e

theorem processHandler_ok (files : List MFile) (analyses : List Analysis)
    (model context : String) (now : Nat) (store : Store)
    (h1 : files ≠ []) (h2 : analyses ≠ []) (h3 : model ≠ "") :
    processHandler files analyses model context now store
      = (ProcessResponse.ok (datasetIdOf now),
         storePut store (datasetIdOf now)
           (batchArchive files analyses model context)) := by
  unfold processHandler batchArchive batchTempDir
  rw [if_neg (fun hc => h1 (List.length_eq_zero.mp hc)),
    if_neg (fun hc => h2 (List.length_eq_zero.mp hc)), if_neg h3]

theorem buildEntry_shape (analyses : List Analysis) (f : MFile) :
    buildEntry analyses f
      = { task_type := "text_to_image",
          instruction := (buildEntry analyses f).instruction,
          input_images := [], output_image := f.originalname } := by
  unfold buildEntry
  cases analyses.find? (fun a => a.filename = f.originalname) <;> rfl

/-- Claim C1 (amended): for every non-empty validated batch — and provided
no uploaded file bears one of the reserved names `dataset.jsonl` or
`metadata.jsonl` — the stored archive's `dataset.jsonl` has exactly one
JSON line per input image, in the original upload order, and the
`output_image` of every line (the file's unchanged original name) names a
file present under `images/` of the same archive. -/
theorem c1_lines_in_order_and_images_present (files : List MFile)
    (analyses : List Analysis) (model context : String) (now : Nat)
    (store : Store) (h1 : files ≠ []) (h2 : analyses ≠ []) (h3 : model ≠ "")
    (h4 : ∀ f ∈ files, f.originalname ≠ "dataset.jsonl"
        ∧ f.originalname ≠ "metadata.jsonl") :
    (processHandler files analyses model context now store).1
        = ProcessResponse.ok (datasetIdOf now)
    ∧ storeGet (processHandler files analyses model context now store).2
        (datasetIdOf now) = some (batchArchive files analyses model context)
    ∧ splitNl (batchArchive files analyses model context).datasetJsonl
        = files.map (fun f => serializeEntry (buildEntry analyses f))
    ∧ ∀ f ∈ files,
        imagesHas (batchArchive files analyses model context) f.originalname := by
  have hrun := processHandler_ok files analyses model context now store h1 h2 h3
  refine ⟨?_, ?_, ?_, ?_⟩
  · rw [hrun]
  · rw [hrun]
    exact storeGet_storePut_same store (datasetIdOf now)
      (batchArchive files analyses model context)
  · unfold batchArchive
    rw [splitNl_datasetJsonl _ _ _ (fun hc => h1 (List.map_eq_nil_iff.mp hc)),
      List.map_map]
    rfl
  · intro f hf
    unfold batchArchive
    rw [imagesHas_processImages]
    refine ⟨?_, (h4 f hf).1, (h4 f hf).2⟩
    unfold batchTempDir
    rw [dirHas_copyFold]
    exact Or.inl ⟨f, hf, rfl⟩

theorem c1_witness :
    (processHandler [⟨"a.png", ['x']⟩] [⟨"a.png", ⟨"d", "p", []⟩⟩]
        "m" "" 3 []).1 = ProcessResponse.ok (datasetIdOf 3)
    ∧ storeGet (processHandler [⟨"a.png", ['x']⟩] [⟨"a.png", ⟨"d", "p", []⟩⟩]
        "m" "" 3 []).2 (datasetIdOf 3)
        = some (batchArchive [⟨"a.png", ['x']⟩] [⟨"a.png", ⟨"d", "p", []⟩⟩] "m" "")
    ∧ splitNl (batchArchive [⟨"a.png", ['x']⟩] [⟨"a.png", ⟨"d", "p", []⟩⟩]
        "m" "").datasetJsonl
        = [MFile.mk "a.png" ['x']].map
            (fun f => serializeEntry (buildEntry [⟨"a.png", ⟨"d", "p", []⟩⟩] f))
    ∧ imagesHas (batchArchive [⟨"a.png", ['x']⟩] [⟨"a.png", ⟨"d", "p", []⟩⟩]
        "m" "") "a.png" := by
  have h := c1_lines_in_order_and_images_present [⟨"a.png", ['x']⟩]
    [⟨"a.png", ⟨"d", "p", []⟩⟩] "m" "" 3 [] (by decide) (by decide)
    (by decide) (by decide)
  exact ⟨h.1, h.2.1, h.2.2.1,
    h.2.2.2 (MFile.mk "a.png" ['x']) (by decide)⟩

theorem c1_counterexample :
    (processHandler [⟨"dataset.jsonl", ['x']⟩]
        [⟨"dataset.jsonl", ⟨"d", "p", []⟩⟩] "m" "" 3 []).1
      = ProcessResponse.ok (datasetIdOf 3)
    ∧ storeGet (processHandler [⟨"dataset.jsonl", ['x']⟩]
        [⟨"dataset.jsonl", ⟨"d", "p", []⟩⟩] "m" "" 3 []).2 (datasetIdOf 3)
      = some (batchArchive [⟨"dataset.jsonl", ['x']⟩]
          [⟨"dataset.jsonl", ⟨"d", "p", []⟩⟩] "m" "")
    ∧ splitNl (batchArchive [⟨"dataset.jsonl", ['x']⟩]
        [⟨"dataset.jsonl", ⟨"d", "p", []⟩⟩] "m" "").datasetJsonl
      = [serializeEntry
          { task_type := "text_to_image", instruction := "p",
            input_images := [], output_image := "dataset.jsonl" }]
    ∧ ¬ imagesHas (batchArchive [⟨"dataset.jsonl", ['x']⟩]
        [⟨"dataset.jsonl", ⟨"d", "p", []⟩⟩] "m" "") "dataset.jsonl" := by
  refine ⟨rfl, rfl, by decide, by decide⟩

/-- Claim C3: every line of `dataset.jsonl` in the produced archive is the
JSON object with `task_type` the constant `"text_to_image"`, a string
`instruction`, `input_images` the empty list, and `output_image` the
uploaded file's original filename, unchanged. -/
theorem c3_every_line_is_text_to_image_entry (files : List MFile)
    (analyses : List Analysis) (metadata : DatasetMetadata) (tempDir : Dir)
    (hfiles : files ≠ []) :
    ∀ line ∈ splitNl (processImages (files.map (buildEntry analyses))
        metadata tempDir).datasetJsonl,
      ∃ f ∈ files, ∃ instruction : String,
        line = serializeEntry
          { task_type := "text_to_image", instruction := instruction,
            input_images := [], output_image := f.originalname } := by
  rw [splitNl_datasetJsonl _ _ _ (fun hc => hfiles (List.map_eq_nil_iff.mp hc))]
  intro line hline
  rcases List.mem_map.mp hline with ⟨e, he, rfl⟩
  rcases List.mem_map.mp he with ⟨f, hf, rfl⟩
  exact ⟨f, hf, (buildEntry analyses f).instruction,
    congrArg serializeEntry (buildEntry_shape analyses f)⟩

theorem c3_witness :
    ∃ f ∈ [MFile.mk "a.png" ['x']], ∃ instruction : String,
      serializeEntry (buildEntry [⟨"a.png", ⟨"d", "p", []⟩⟩]
          (MFile.mk "a.png" ['x']))
        = serializeEntry
            { task_type := "text_to_image", instruction := instruction,
              input_images := [], output_image := f.originalname } :=
  c3_every_line_is_text_to_image_entry [⟨"a.png", ['x']⟩]
    [⟨"a.png", ⟨"d", "p", []⟩⟩] { model := "m", context := "", analyses := [] }
    [] (by decide)
    (serializeEntry (buildEntry [⟨"a.png", ⟨"d", "p", []⟩⟩]
      (MFile.mk "a.png" ['x']))) (by decide)

/-- Claim C7: fetching an identifier for which no archive was stored
returns NotFound (it does not crash — the handler is total) and leaves the
store contents unchanged. -/
theorem c7_unknown_id_not_found (store : Store) (id : String)
    (h : storeGet store id = none) :
    fetchDataset store id = (FetchResponse.notFound, store) := by
  unfold fetchDataset
  rw [h]

theorem c7_witness :
    fetchDataset [] "123" = (FetchResponse.notFound, []) :=
  c7_unknown_id_not_found [] "123" rfl

/-- Claim C9: the packager writes `dataset.jsonl` and `metadata.jsonl`
into the same working directory whose contents become the archive's
`images/` directory, excluding exactly those two names; consequently every
other file of the working directory appears under `images/`, and an
uploaded image whose original filename is exactly `dataset.jsonl` or
`metadata.jsonl` is silently omitted from `images/`. -/
theorem c9_reserved_names_excluded_from_images (entries : List DatasetEntry)
    (metadata : DatasetMetadata) (tempDir : Dir) :
    (∀ m, imagesHas (processImages entries metadata tempDir) m
        ↔ (dirHas tempDir m ∧ m ≠ "dataset.jsonl" ∧ m ≠ "metadata.jsonl"))
    ∧ ¬ imagesHas (processImages entries metadata tempDir) "dataset.jsonl"
    ∧ ¬ imagesHas (processImages entries metadata tempDir) "metadata.jsonl"
    ∧ (∀ (files : List MFile) (analyses : List Analysis)
        (model context : String) (f : MFile), f ∈ files →
        (f.originalname = "dataset.jsonl" ∨ f.originalname = "metadata.jsonl") →
        ¬ imagesHas (batchArchive files analyses model context)
          f.originalname) := by
  refine ⟨fun m => imagesHas_processImages entries metadata tempDir m,
    ?_, ?_, ?_⟩
  · rw [imagesHas_processImages]
    simp
  · rw [imagesHas_processImages]
    simp
  · intro files analyses model context f _ hor
    unfold batchArchive
    rw [imagesHas_processImages]
    rintro ⟨_, hne1, hne2⟩
    rcases hor with h | h
    · exact hne1 h
    · exact hne2 h

theorem c9_witness :
    ¬ imagesHas (processImages []
        { model := "m", context := "", analyses := [] } []) "dataset.jsonl" :=
  (c9_reserved_names_excluded_from_images []
    { model := "m", context := "", analyses := [] } []).2.1

theorem c6_counterexample :
    (processHandler [⟨"a.png", ['x']⟩] [⟨"a.png", ⟨"d", "p", []⟩⟩]
        "m" "" 1000 []).1 = ProcessResponse.ok (datasetIdOf 1000)
    ∧ (processHandler [⟨"b.png", ['y']⟩] [⟨"b.png", ⟨"e", "q", []⟩⟩]
        "m" "" 1000
        (processHandler [⟨"a.png", ['x']⟩] [⟨"a.png", ⟨"d", "p", []⟩⟩]
          "m" "" 1000 []).2).1 = ProcessResponse.ok (datasetIdOf 1000)
    ∧ storeGet (processHandler [⟨"b.png", ['y']⟩] [⟨"b.png", ⟨"e", "q", []⟩⟩]
        "m" "" 1000
        (processHandler [⟨"a.png", ['x']⟩] [⟨"a.png", ⟨"d", "p", []⟩⟩]
          "m" "" 1000 []).2).2 (datasetIdOf 1000)
      = some (batchArchive [⟨"b.png", ['y']⟩] [⟨"b.png", ⟨"e", "q", []⟩⟩] "m" "")
    ∧ batchArchive [⟨"b.png", ['y']⟩] [⟨"b.png", ⟨"e", "q", []⟩⟩] "m" ""
      ≠ batchArchive [⟨"a.png", ['x']⟩] [⟨"a.png", ⟨"d", "p", []⟩⟩] "m" "" := by
  refine ⟨rfl, rfl, rfl, by decide⟩

/-- Claim C6 (amended): two put operations generate distinct identifiers —
and the earlier stored archive stays retrievable — provided the two batch
completions read distinct `Date.now()` clock values; two puts within the
same millisecond share one identifier, and the later one overwrites the
earlier archive. -/
theorem c6_distinct_ticks_distinct_ids (n1 n2 : Nat) (h : n1 ≠ n2) :
    datasetIdOf n1 ≠ datasetIdOf n2
    ∧ ∀ (store : Store) (a1 a2 : Archive),
        storeGet (storePut (storePut store (datasetIdOf n1) a1)
          (datasetIdOf n2) a2) (datasetIdOf n1) = some a1 := by
  have hid : datasetIdOf n1 ≠ datasetIdOf n2 :=
    fun he => h (datasetIdOf_injective he)
  refine ⟨hid, ?_⟩
  intro store a1 a2
  rw [storeGet_storePut_other _ _ _ _ hid,
    storeGet_storePut_same]

theorem c6_witness :
    datasetIdOf 1000 ≠ datasetIdOf 1001
    ∧ storeGet (storePut (storePut [] (datasetIdOf 1000)
          { datasetJsonl := [], metadataJsonl := [], images := [] })
        (datasetIdOf 1001)
          { datasetJsonl := ['x'], metadataJsonl := [], images := [] })
        (datasetIdOf 1000)
      = some { datasetJsonl := [], metadataJsonl := [], images := [] } :=
  ⟨(c6_distinct_ticks_distinct_ids 1000 1001 (by decide)).1,
   (c6_distinct_ticks_distinct_ids 1000 1001 (by decide)).2 []
     { datasetJsonl := [], metadataJsonl := [], images := [] }
     { datasetJsonl := ['x'], metadataJsonl := [], images := [] }⟩

theorem c8_counterexample :
    (processHandler [] [⟨"a.png", ⟨"d", "p", []⟩⟩] "m" "" 0 []).1
      = ProcessResponse.err 500 "No files uploaded"
    ∧ ¬ isClientError
        (processHandler [] [⟨"a.png", ⟨"d", "p", []⟩⟩] "m" "" 0 []).1 := by
  refine ⟨rfl, by decide⟩

/-- Claim C8 (amended): an empty image list is rejected immediately by
validation before any work happens — the handler stores nothing, returns
no dataset identifier and the client loop issues no analyze or process
network calls — but the error is surfaced as HTTP 500 (the thrown
validation error hits the catch-all), not as a 4xx client error. -/
theorem c8_empty_batch_rejected (analyses : List Analysis)
    (model context : String) (now : Nat) (store : Store)
    (cancel : Option Nat) :
    (processHandler [] analyses model context now store).1
        = ProcessResponse.err 500 "No files uploaded"
    ∧ (processHandler [] analyses model context now store).2 = store
    ∧ (∀ id, (processHandler [] analyses model context now store).1
        ≠ ProcessResponse.ok id)
    ∧ runBatch [] analyses model context cancel now store
        = ({ stage := Stage.analyzing, datasetId := none,
             analyzeCalls := 0, processCalls := 0 }, store) := by
  refine ⟨rfl, rfl, fun id h => ProcessResponse.noConfusion h, ?_⟩
  simp [runBatch, clientLoop]

/-- Claim C2 (code violation at a concrete run): a one-image batch whose
cancellation fires while the final `/api/process` request is in flight
(slot 1) — i.e. before the packaging step returns — never reaches the
`complete` stage and the client learns no identifier, but the server runs
the handler to completion anyway: the archive is stored and
`fetchDataset` succeeds on the identifier attributed to that run,
contradicting the claim that no retrievable dataset identifier is ever
produced. -/
theorem c2_cancelled_packaging_still_stores :
    (runBatch [⟨"a.png", ['x']⟩] [⟨"a.png", ⟨"d", "p", []⟩⟩]
        "m" "c" (some 1) 7 []).1.stage = Stage.archiving
    ∧ (runBatch [⟨"a.png", ['x']⟩] [⟨"a.png", ⟨"d", "p", []⟩⟩]
        "m" "c" (some 1) 7 []).1.stage ≠ Stage.complete
    ∧ (runBatch [⟨"a.png", ['x']⟩] [⟨"a.png", ⟨"d", "p", []⟩⟩]
        "m" "c" (some 1) 7 []).1.datasetId = none
    ∧ (fetchDataset (runBatch [⟨"a.png", ['x']⟩] [⟨"a.png", ⟨"d", "p", []⟩⟩]
        "m" "c" (some 1) 7 []).2 (datasetIdOf 7)).1
      = FetchResponse.download
          (batchArchive [⟨"a.png", ['x']⟩] [⟨"a.png", ⟨"d", "p", []⟩⟩]
            "m" "c") := by
  refine ⟨rfl, by decide, rfl, rfl⟩

/-- Claim C4: `generateDescription` returns either a well-formed structured
success or a typed failure distinguishable from success: an `ok` result
arises only from a parsed API message (never a failure disguised as
success) and carries exactly the parsed data with the provenance metadata;
a refusal yields a failure wrapping the refusal text; malformed or empty
model output yields the `Unknown` failure; a thrown transport error yields
a failure carrying the underlying message. -/
theorem c4_typed_result_classification (model context : String)
    (o : ApiOutcome) :
    (∀ d md, generateDescription model context o
        = GenerateDescriptionResponse.ok d md →
        ∃ fp, o = ApiOutcome.parsed d fp
          ∧ md = { model := model, prompt := promptOf context,
                   temperatureTenths := 7, seed := 42,
                   systemFingerprint := fp })
    ∧ (∀ d fp, o = ApiOutcome.parsed d fp →
        generateDescription model context o
          = GenerateDescriptionResponse.ok d
              { model := model, prompt := promptOf context,
                temperatureTenths := 7, seed := 42,
                systemFingerprint := fp })
    ∧ (∀ r fp, o = ApiOutcome.refusal r fp →
        generateDescription model context o
          = GenerateDescriptionResponse.failure "Failed to analyze image."
              ("Error generating description: " ++ r))
    ∧ (∀ fp, o = ApiOutcome.empty fp →
        generateDescription model context o
          = GenerateDescriptionResponse.failure "Failed to analyze image."
              "Unknown")
    ∧ (∀ m, o = ApiOutcome.threw m →
        generateDescription model context o
          = GenerateDescriptionResponse.failure
              ("Failed to analyze image: " ++ m) m) := by
  refine ⟨?_, ?_, ?_, ?_, ?_⟩
  · intro d md h
    cases o with
    | parsed d0 fp =>
      simp only [generateDescription, GenerateDescriptionResponse.ok.injEq] at h
      exact ⟨fp, by rw [h.1], h.2.symm⟩
    | refusal r fp => exact absurd h (by simp [generateDescription])
    | empty fp => exact absurd h (by simp [generateDescription])
    | threw m => exact absurd h (by simp [generateDescription])
  · rintro d fp rfl
    rfl
  · rintro r fp rfl
    rfl
  · rintro fp rfl
    rfl
  · rintro m rfl
    rfl

theorem c4_witness :
    generateDescription "gpt-4o-mini" "" (ApiOutcome.threw "connection reset")
      = GenerateDescriptionResponse.failure
          ("Failed to analyze image: " ++ "connection reset")
          "connection reset" :=
  (c4_typed_result_classification "gpt-4o-mini" ""
    (ApiOutcome.threw "connection reset")).2.2.2.2 "connection reset" rfl

/-- Claim C5: the per-image retry loop runs at most `MAX_RETRIES = 3`
attempts with exponentially increasing backoff delays (`1000 * 2 ^ attempt`
ms) between attempts and gives up after the bound; a retry happens only
after a transport-class failure (a rejected fetch or a non-ok HTTP
response), never after an ok response — and refusal or unparseable analysis
results reach the loop as HTTP 200 responses carrying the failure payload,
so they are never retried; an abort is re-thrown at once. -/
theorem c5_bounded_exponential_retry_on_transport_only
    (outcomes : Nat → AttemptOutcome) :
    (analyzeImage outcomes).attemptsMade ≤ MAX_RETRIES
    ∧ (analyzeImage outcomes).delays
        = (List.range ((analyzeImage outcomes).attemptsMade - 1)).map
            (fun a => 1000 * 2 ^ a)
    ∧ (∀ d, outcomes 0 = AttemptOutcome.httpOk d →
        analyzeImage outcomes
          = { result := AnalyzeResult.success d, attemptsMade := 1,
              delays := [] })
    ∧ (outcomes 0 = AttemptOutcome.aborted →
        analyzeImage outcomes
          = { result := AnalyzeResult.thrownAbort, attemptsMade := 1,
              delays := [] })
    ∧ (1 < (analyzeImage outcomes).attemptsMade →
        ∃ m, outcomes 0 = AttemptOutcome.httpErr m
          ∨ outcomes 0 = AttemptOutcome.netErr m)
    ∧ (∀ m0 m1 m2,
        outcomes 0 = AttemptOutcome.httpErr m0 →
        outcomes 1 = AttemptOutcome.httpErr m1 →
        outcomes 2 = AttemptOutcome.httpErr m2 →
        analyzeImage outcomes
          = { result := AnalyzeResult.failure m2, attemptsMade := 3,
              delays := [1000, 2000] }) := by
  refine ⟨?_, ?_, ?_, ?_, ?_, ?_⟩
  · cases h0 : outcomes 0 <;> cases h1 : outcomes 1 <;> cases h2 : outcomes 2 <;>
      simp [analyzeImage, analyzeLoop, MAX_RETRIES, h0, h1, h2]
  · cases h0 : outcomes 0 <;> cases h1 : outcomes 1 <;> cases h2 : outcomes 2 <;>
      simp [analyzeImage, analyzeLoop, MAX_RETRIES, h0, h1, h2, List.range_succ]
  · intro d h0
    simp [analyzeImage, analyzeLoop, MAX_RETRIES, h0]
  · intro h0
    simp [analyzeImage, analyzeLoop, MAX_RETRIES, h0]
  · intro hgt
    cases h0 : outcomes 0 with
    | httpOk d => simp [analyzeImage, analyzeLoop, MAX_RETRIES, h0] at hgt
    | aborted => simp [analyzeImage, analyzeLoop, MAX_RETRIES, h0] at hgt
    | httpErr m => exact ⟨m, Or.inl rfl⟩
    | netErr m => exact ⟨m, Or.inr rfl⟩
  · intro m0 m1 m2 h0 h1 h2
    simp [analyzeImage, analyzeLoop, MAX_RETRIES, h0, h1, h2]

theorem c5_witness :
    (analyzeImage (fun _ => AttemptOutcome.httpOk "an ok response")).attemptsMade
        ≤ MAX_RETRIES
    ∧ analyzeImage (fun _ => AttemptOutcome.httpOk "an ok response")
        = { result := AnalyzeResult.success "an ok response",
            attemptsMade := 1, delays := [] } :=
  ⟨(c5_bounded_exponential_retry_on_transport_only
      (fun _ => AttemptOutcome.httpOk "an ok response")).1,
   (c5_bounded_exponential_retry_on_transport_only
      (fun _ => AttemptOutcome.httpOk "an ok response")).2.2.1
     "an ok response" rfl⟩

/-- Claim C10: after the single-image analyze endpoint completes — whether
`generateDescription` succeeds or throws — the temporary file it wrote
under `uploads/` has been deleted: the resulting uploads directory contains
no path that was not there before, and whenever the handler wrote the
temporary file (the validated branches) that path is absent afterwards. -/
theorem c10_analyze_leaves_no_temp_file (fs : FsState) (filename : String)
    (valid : Bool) (genOutcome : Option String) :
    (∀ p ∈ (analyzeHandler fs filename valid genOutcome).2, p ∈ fs)
    ∧ (valid = true →
        ("uploads/" ++ filename)
          ∉ (analyzeHandler fs filename valid genOutcome).2) := by
  unfold analyzeHandler
  cases valid with
  | false =>
    refine ⟨fun p hp => ?_, fun h => by cases h⟩
    simpa using hp
  | true =>
    have hmain : ∀ p, p ∈ fsUnlink (fsWrite fs ("uploads/" ++ filename))
        ("uploads/" ++ filename) → p ∈ fs := by
      intro p hp
      unfold fsUnlink at hp
      rcases List.mem_filter.mp hp with ⟨hp1, hp2⟩
      simp only [decide_eq_true_eq] at hp2
      unfold fsWrite at hp1
      by_cases hc : fs.contains ("uploads/" ++ filename)
      · rwa [if_pos hc] at hp1
      · rw [if_neg hc] at hp1
        rcases List.mem_cons.mp hp1 with rfl | h
        · exact absurd rfl hp2
        · exact h
    have hgone : ("uploads/" ++ filename)
        ∉ fsUnlink (fsWrite fs ("uploads/" ++ filename))
          ("uploads/" ++ filename) := by
      intro hmem
      unfold fsUnlink at hmem
      rcases List.mem_filter.mp hmem with ⟨_, hp2⟩
      simp at hp2
    cases genOutcome with
    | some d => exact ⟨fun p hp => hmain p hp, fun _ => hgone⟩
    | none => exact ⟨fun p hp => hmain p hp, fun _ => hgone⟩

theorem c10_witness :
    ("uploads/" ++ "a.png")
      ∉ (analyzeHandler ["uploads/other.png"] "a.png" true (some "d")).2
    ∧ ("uploads/" ++ "a.png")
      ∉ (analyzeHandler ["uploads/other.png"] "a.png" true none).2 :=
  ⟨(c10_analyze_leaves_no_temp_file ["uploads/other.png"] "a.png" true
      (some "d")).2 rfl,
   (c10_analyze_leaves_no_temp_file ["uploads/other.png"] "a.png" true
      none).2 rfl⟩


theorem c8_witness :
    (processHandler [] [⟨"a.png", ⟨"d", "p", []⟩⟩] "m" "" 5 []).1
        = ProcessResponse.err 500 "No files uploaded"
    ∧ (processHandler [] [⟨"a.png", ⟨"d", "p", []⟩⟩] "m" "" 5 []).1
        ≠ ProcessResponse.ok "5" :=
  ⟨(c8_empty_batch_rejected [⟨"a.png", ⟨"d", "p", []⟩⟩] "m" "" 5 [] none).1,
   (c8_empty_batch_rejected [⟨"a.png", ⟨"d", "p", []⟩⟩] "m" "" 5 [] none).2.2.1
     "5"⟩
